import Mathlib

/-!
Shallow embedding of the synchronization core of the tsrc repository:
the generic task executor (src/tsrc/executor.py), the repository
synchronizer (src/tsrc/workspace/syncer.py) and the remote setter
(src/tsrc/workspace/remote_setter.py).

Python strings become `String`, optional values become `Option`, and
Python truthiness tests on optional strings / ints are made explicit.
Raising a domain `Error` becomes returning `Except.error`.  The
version-control subprocess layer (tsrc/git.py, which is not part of the
sources) is modelled from the spec as an environment `GitEnv` of pure
functions, and every git command a function issues is collected in an
explicit trace, so that theorems can speak about which commands ran.
-/

namespace Tsrc

/-- Modelled from the spec: the domain error type of tsrc (tsrc/errors.py is
not among the sources; the spec only requires a typed error carrying a
message). -/
structure Error where
  msg : String
deriving DecidableEq

/-- A `(name, url)` pair, from tsrc/repo.py as described by the spec. -/
structure Remote where
  name : String
  url : String
deriving DecidableEq

/-- Repository descriptor, from tsrc/repo.py as described by the spec. -/
structure Repo where
  dest : String
  remotes : List Remote
  branch : String
  tag : Option String
  sha1 : Option String
deriving DecidableEq

/-- Python truthiness of an `Optional[str]`: `None` and `""` are falsy. -/
def pyTruthyStr : Option String → Bool
  | none => false
  | some s => s ≠ ""

/-- Python truthiness of an `Optional[int]`: `None` and `0` are falsy. -/
def pyTruthyInt : Option Int → Bool
  | none => false
  | some n => n ≠ 0

/-- A git command: the working directory it runs in, and its arguments. -/
abbrev Cmd := String × List String

/-- The single-quote character, used in error messages. -/
def sq : String := String.singleton (Char.ofNat 39)

/-- The literal argument `@{upstream}` (braces written via code points). -/
def upstreamArg : String :=
  "@" ++ String.singleton (Char.ofNat 123) ++ "upstream" ++ String.singleton (Char.ofNat 125)

/-- Modelled from the spec: the VCS adapter (tsrc/git.py is not among the
sources).  `run_git` returns `none` on success and `some e` when the
command fails and the adapter raises `e`; `run_git_captured` returns the
exit code and the captured output; `captured_fail_msg` is the message of
the error `run_git_captured` raises when called with `check=True` on a
non-zero exit (the spec fixes no particular message);
`get_current_branch` raises when HEAD is detached; `status_dirty` is the
`dirty` field of `get_git_status`. -/
structure GitEnv where
  run_git : String → List String → Option Error
  run_git_captured : String → List String → Int × String
  captured_fail_msg : String → List String → String
  get_current_branch : String → Except Error String
  status_dirty : String → Bool

/-- From syncer.py: description of a repo found on the wrong branch. -/
structure RepoAtIncorrectBranchDescription where
  dest : String
  actual : String
  expected : String
deriving DecidableEq

/-- The state of a `Syncer` task (syncer.py): construction arguments plus
the mutable `parallel` flag inherited from `Task` and the mutable
`bad_branches` list. -/
structure Syncer where
  workspace_path : String
  force : Bool
  remote_name : Option String
  parallel : Bool
  bad_branches : List RepoAtIncorrectBranchDescription

/-- `workspace_path / repo.dest`. -/
def Syncer.repoPath (s : Syncer) (repo : Repo) : String :=
  s.workspace_path ++ "/" ++ repo.dest

/-- `Syncer._pick_remotes`.  Note that Python's `if self.remote_name:` is
false both for `None` and for the empty string. -/
def Syncer.pick_remotes (s : Syncer) (repo : Repo) : Except Error (List Remote) :=
  match s.remote_name with
  | some n =>
    if n = "" then .ok repo.remotes
    else
      match repo.remotes.find? (fun r => r.name = n) with
      | some r => .ok [r]
      | none => .error ⟨"Remote " ++ n ++ " not found for repository " ++ repo.dest⟩
  | none => .ok repo.remotes

/-- The argument list of the fetch command built in `Syncer.fetch`:
`["fetch", "--tags", "--prune", remote.name]`, with `"--force"` appended
when the syncer was constructed with `force=True`. -/
def fetchCmdArgs (force : Bool) (r : Remote) : List String :=
  ["fetch", "--tags", "--prune", r.name] ++ (if force then ["--force"] else [])

/-- The loop body of `Syncer.fetch`: run the fetch command for each remote
in turn; any failure raises `fetch from '<name>' failed` and stops. -/
def fetchLoop (s : Syncer) (env : GitEnv) (path : String) :
    List Remote → Except Error Unit × List Cmd
  | [] => (.ok (), [])
  | r :: rest =>
    let cmd := fetchCmdArgs s.force r
    match env.run_git path cmd with
    | some _ => (.error ⟨"fetch from " ++ sq ++ r.name ++ sq ++ " failed"⟩, [(path, cmd)])
    | none =>
      let rec_result := fetchLoop s env path rest
      (rec_result.1, (path, cmd) :: rec_result.2)

/-- `Syncer.fetch`. -/
def Syncer.fetch (s : Syncer) (env : GitEnv) (repo : Repo) :
    Except Error Unit × List Cmd :=
  match s.pick_remotes repo with
  | .error e => (.error e, [])
  | .ok remotes => fetchLoop s env (s.repoPath repo) remotes

/-- `Syncer.check_branch`: on a detached HEAD raise `Not on any branch`;
when the current branch is non-empty and differs from `repo.branch`,
append a `RepoAtIncorrectBranchDescription` to `bad_branches` and return
normally. -/
def Syncer.check_branch (s : Syncer) (env : GitEnv) (repo : Repo) :
    Except Error (List RepoAtIncorrectBranchDescription) :=
  match env.get_current_branch (s.repoPath repo) with
  | .error _ => .error ⟨"Not on any branch"⟩
  | .ok current_branch =>
    if current_branch ≠ "" ∧ current_branch ≠ repo.branch then
      .ok (s.bad_branches ++ [⟨repo.dest, current_branch, repo.branch⟩])
    else
      .ok s.bad_branches

/-- `Syncer.sync_repo_to_ref`: refuse to reset when the tree is dirty,
else `reset --hard <ref>`, mapping a reset failure to `updating ref
failed`. -/
def Syncer.sync_repo_to_ref (s : Syncer) (env : GitEnv) (repo : Repo) (ref : String) :
    Except Error Unit × List Cmd :=
  if env.status_dirty (s.repoPath repo) then
    (.error ⟨s.repoPath repo ++ " is dirty, skipping"⟩, [])
  else
    match env.run_git (s.repoPath repo) ["reset", "--hard", ref] with
    | some _ => (.error ⟨"updating ref failed"⟩, [(s.repoPath repo, ["reset", "--hard", ref])])
    | none => (.ok (), [(s.repoPath repo, ["reset", "--hard", ref])])

/-- Arguments of the captured log query used in parallel mode. -/
def logCmdArgs : List String := ["log", "--oneline", "HEAD.." ++ upstreamArg]

/-- Arguments of the fast-forward merge command. -/
def mergeCmdArgs : List String := ["merge", "--ff-only", upstreamArg]

/-- Arguments of the submodule update command. -/
def submoduleCmdArgs : List String := ["submodule", "update", "--init", "--recursive"]

/-- `"-" * n`. -/
def dashes (n : Nat) : String := String.mk (List.replicate n (Char.ofNat 45))

/-- `if not out.endswith("\n"): out += "\n"`. -/
def ensureNewline (out : String) : String :=
  if out.endsWith "\n" then out else out ++ "\n"

/-- `Syncer.sync_repo_to_branch`.  In parallel mode first query
`log --oneline HEAD..@\x7bupstream\x7d` captured; if it exits 0 with empty
output, return no summary and merge nothing; otherwise run the merge
captured (`check=True`: a non-zero exit raises the adapter's error) and
return the summary block.  In sequential mode run the merge with live
output, mapping failure to `updating branch failed`. -/
def Syncer.sync_repo_to_branch (s : Syncer) (env : GitEnv) (repo : Repo) :
    Except Error (Option (List String)) × List Cmd :=
  if s.parallel then
    if (env.run_git_captured (s.repoPath repo) logCmdArgs).1 = 0 ∧
        (env.run_git_captured (s.repoPath repo) logCmdArgs).2 = "" then
      (.ok none, [(s.repoPath repo, logCmdArgs)])
    else
      if (env.run_git_captured (s.repoPath repo) mergeCmdArgs).1 ≠ 0 then
        (.error ⟨env.captured_fail_msg (s.repoPath repo) mergeCmdArgs⟩,
          [(s.repoPath repo, logCmdArgs), (s.repoPath repo, mergeCmdArgs)])
      else
        (.ok (some [repo.dest ++ "\n" ++ dashes repo.dest.length ++ "\n",
            ensureNewline (env.run_git_captured (s.repoPath repo) mergeCmdArgs).2]),
          [(s.repoPath repo, logCmdArgs), (s.repoPath repo, mergeCmdArgs)])
  else
    match env.run_git (s.repoPath repo) mergeCmdArgs with
    | some _ => (.error ⟨"updating branch failed"⟩, [(s.repoPath repo, mergeCmdArgs)])
    | none => (.ok none, [(s.repoPath repo, mergeCmdArgs)])

/-- `Syncer.update_submodules`: run `submodule update --init --recursive`;
its error (if any) propagates unchanged. -/
def Syncer.update_submodules (s : Syncer) (env : GitEnv) (repo : Repo) :
    Except Error Unit × List Cmd :=
  match env.run_git (s.repoPath repo) submoduleCmdArgs with
  | some e => (.error e, [(s.repoPath repo, submoduleCmdArgs)])
  | none => (.ok (), [(s.repoPath repo, submoduleCmdArgs)])

/-- The ref selection of `Syncer.process`: `if repo.tag: ... elif
repo.sha1: ...` (Python truthiness: an empty tag or sha1 is falsy). -/
def refOf (repo : Repo) : Option String :=
  if pyTruthyStr repo.tag then repo.tag
  else if pyTruthyStr repo.sha1 then repo.sha1
  else none

instance {ε α : Type} [DecidableEq ε] [DecidableEq α] : DecidableEq (Except ε α)
  | .error x, .error y => decidable_of_iff (x = y) (by simp)
  | .error _, .ok _ => isFalse (fun h => Except.noConfusion h)
  | .ok _, .error _ => isFalse (fun h => Except.noConfusion h)
  | .ok x, .ok y => decidable_of_iff (x = y) (by simp)

/-- Result of processing one repo: the summary returned by
`Syncer.process` (or the raised error), the git commands issued, and the
final `bad_branches` list of the task. -/
structure SyncOutcome where
  result : Except Error (List String)
  trace : List Cmd
  bad_branches : List RepoAtIncorrectBranchDescription
deriving DecidableEq

/-- `Syncer.process`: fetch, then either reset to the tag/sha1 ref or
check the branch and fast-forward it, then update submodules.  The first
raised error stops the pipeline. -/
def Syncer.process (s : Syncer) (env : GitEnv) (repo : Repo) : SyncOutcome :=
  match s.fetch env repo with
  | (.error e, tr1) => ⟨.error e, tr1, s.bad_branches⟩
  | (.ok _, tr1) =>
    match refOf repo with
    | some r =>
      match s.sync_repo_to_ref env repo r with
      | (.error e, tr2) => ⟨.error e, tr1 ++ tr2, s.bad_branches⟩
      | (.ok _, tr2) =>
        match s.update_submodules env repo with
        | (.error e, tr3) => ⟨.error e, tr1 ++ tr2 ++ tr3, s.bad_branches⟩
        | (.ok _, tr3) => ⟨.ok [], tr1 ++ tr2 ++ tr3, s.bad_branches⟩
    | none =>
      match s.check_branch env repo with
      | .error e => ⟨.error e, tr1, s.bad_branches⟩
      | .ok bb =>
        match ({ s with bad_branches := bb } : Syncer).sync_repo_to_branch env repo with
        | (.error e, tr2) => ⟨.error e, tr1 ++ tr2, bb⟩
        | (.ok sync_summary, tr2) =>
          match ({ s with bad_branches := bb } : Syncer).update_submodules env repo with
          | (.error e, tr3) => ⟨.error e, tr1 ++ tr2 ++ tr3, bb⟩
          | (.ok _, tr3) =>
            ⟨.ok (match sync_summary with
              | some lines => if lines ≠ [] then lines else []
              | none => []), tr1 ++ tr2 ++ tr3, bb⟩

/-- Terminal output of `display_bad_branches`: the error line and one
table row (project, actual, expected) per recorded description. -/
inductive BadBranchEvent where
  | errorLine (msg : String)
  | tableRow (dest actual expected : String)
deriving DecidableEq

/-- `Syncer.display_bad_branches`: nothing when `bad_branches` is empty
(Python's `if not self.bad_branches: return`); otherwise print the error
line and the table of bad branches, then raise `BadBranches` (the second
component is whether the exception was raised). -/
def Syncer.display_bad_branches (s : Syncer) : List BadBranchEvent × Bool :=
  if s.bad_branches = [] then ([], false)
  else
    (BadBranchEvent.errorLine "Some projects were not on the correct branch" ::
      s.bad_branches.map (fun x => BadBranchEvent.tableRow x.dest x.actual x.expected),
     true)

/-! ## Executor (src/tsrc/executor.py) -/

/-- `Outcome`: per-item result. -/
structure Outcome where
  error : Option Error
  summary : Option String
deriving DecidableEq

/-- `Outcome.empty`. -/
def Outcome.empty : Outcome := ⟨none, none⟩

/-- `Outcome.from_error`. -/
def Outcome.from_error (e : Error) : Outcome := ⟨some e, none⟩

/-- `Outcome.from_summary`. -/
def Outcome.from_summary (message : String) : Outcome := ⟨none, some message⟩

/-- `Outcome.from_lines`. -/
def Outcome.from_lines (lines : List String) : Outcome :=
  if lines ≠ [] then ⟨none, some (String.intercalate "\n" lines)⟩ else Outcome.empty

/-- `Outcome.success`: true iff no error is attached. -/
def Outcome.success (o : Outcome) : Bool := o.error.isNone

/-- The abstract `Task[T]` contract as the executors use it: a
description for each item, and a `process` that either returns an
`Outcome` or raises a domain `Error` (modelled as `Except.error`). -/
structure Task (T : Type) where
  describe_item : T → String
  process : Nat → Nat → T → Except Error Outcome

/-- The outcome an executor stores for one item: the returned outcome,
or `Outcome.from_error e` when `process` raised `e`. -/
def outcomeOf {T : Type} (task : Task T) (index count : Nat) (item : T) : Outcome :=
  match task.process index count item with
  | .ok o => o
  | .error e => Outcome.from_error e

/-- `result[key] = value` on a Python dict kept as an association list:
an existing key keeps its position and gets the new value, a new key is
appended. -/
def dictInsert (d : List (String × Outcome)) (k : String) (v : Outcome) :
    List (String × Outcome) :=
  if d.any (fun p => p.1 = k) then
    d.map (fun p => if p.1 = k then (k, v) else p)
  else d ++ [(k, v)]

/-- The loop of `SequentialExecutor.process`, carrying the running index
and the result dict. -/
def seqLoop {T : Type} (task : Task T) (count : Nat) :
    Nat → List T → List (String × Outcome) → List (String × Outcome)
  | _, [], result => result
  | index, item :: rest, result =>
    seqLoop task count (index + 1) rest
      (dictInsert result (task.describe_item item) (outcomeOf task index count item))

/-- `SequentialExecutor.process`: one-to-one ordered traversal of the
items, each raised `Error` captured as `Outcome.from_error`. -/
def SequentialExecutor.process {T : Type} (task : Task T) (items : List T) :
    List (String × Outcome) :=
  seqLoop task items.length 0 items []

/-- The collection loop of `ParallelExecutor.process`: futures are
indexed by the item's position in `items`, and `as_completed` yields
them in some completion order, modelled as the list `order` of
positions. -/
def parLoop {T : Type} (task : Task T) (items : List T) :
    List Nat → List (String × Outcome) → List (String × Outcome)
  | [], result => result
  | i :: rest, result =>
    match items.get? i with
    | none => parLoop task items rest result
    | some item =>
      parLoop task items rest
        (dictInsert result (task.describe_item item) (outcomeOf task i items.length item))

/-- `ParallelExecutor.process`, parameterized by the nondeterministic
completion order of the futures (a permutation of the item positions). -/
def ParallelExecutor.process {T : Type} (task : Task T) (items : List T)
    (completion_order : List Nat) : List (String × Outcome) :=
  parLoop task items completion_order []

/-- `OutcomeCollection`: the (summaries, errors) split. -/
structure OutcomeCollection where
  summary : List String
  errors : List (String × Error)
deriving DecidableEq

/-- The `OutcomeCollection` constructor: one traversal of the outcome
map; every truthy (non-empty) summary is appended, every attached error
is inserted keyed by the item description. -/
def OutcomeCollection.build (outcomes : List (String × Outcome)) : OutcomeCollection :=
  { summary := outcomes.filterMap (fun p =>
      match p.2.summary with
      | some m => if m ≠ "" then some m else none
      | none => none),
    errors := outcomes.filterMap (fun p =>
      match p.2.error with
      | some e => some (p.1, e)
      | none => none) }

/-- Terminal output of `handle_result`: plain info lines, the error
header, and one formatted `(item, error)` bullet per failed item. -/
inductive Event where
  | info (msg : String)
  | err (msg : String)
  | errorItem (item : String) (e : Error)
deriving DecidableEq

/-- `OutcomeCollection.handle_result`, returning the terminal events in
order and whether `ExecutorFailed` was raised.  Python truthiness: an
empty `summary_title` is not printed, like `None`. -/
def OutcomeCollection.handle_result (c : OutcomeCollection) (error_message : String)
    (summary_title : Option String) : List Event × Bool :=
  let summaryEvents : List Event :=
    if c.summary ≠ [] then
      (match summary_title with
       | some t => if t ≠ "" then [Event.info t] else []
       | none => []) ++ c.summary.map Event.info
    else []
  if c.errors ≠ [] then
    (summaryEvents ++ Event.err error_message :: c.errors.map (fun p => Event.errorItem p.1 p.2),
     true)
  else
    (summaryEvents, false)

/-- `process_items`: dispatch on the truthiness of `num_jobs` (Python's
`if num_jobs:`), set `task.parallel` accordingly (returned as the first
component), run the matching executor and wrap the result in an
`OutcomeCollection`. -/
def process_items {T : Type} (items : List T) (task : Task T) (num_jobs : Option Int)
    (completion_order : List Nat) : Bool × OutcomeCollection :=
  if pyTruthyInt num_jobs then
    (true, OutcomeCollection.build (ParallelExecutor.process task items completion_order))
  else
    (false, OutcomeCollection.build (SequentialExecutor.process task items))

/-! ## Remote setter (src/tsrc/workspace/remote_setter.py) -/

/-- A `cli_ui` token as used in the remote setter's messages. -/
inductive Token where
  | str (s : String)
  | resetTok
  | boldTok
  | brownTok
deriving DecidableEq

/-- `RemoteSetter.get_remote`: `remote get-url <name>` captured with
`check=False`; a non-zero exit means the remote does not exist. -/
def RemoteSetter.get_remote (env : GitEnv) (workspace_path : String) (repo : Repo)
    (name : String) : Option Remote :=
  let full_path := workspace_path ++ "/" ++ repo.dest
  let rcUrl := env.run_git_captured full_path ["remote", "get-url", name]
  if rcUrl.1 ≠ 0 then none else some ⟨name, rcUrl.2⟩

/-- The message tuple of `RemoteSetter.set_remote`. -/
def setRemoteMessage (repo : Repo) (remote : Remote) : List Token :=
  [.str (repo.dest ++ ":"), .str "Update remote", .resetTok, .boldTok, .str remote.name,
   .resetTok, .str "to new url:", .brownTok, .str ("(" ++ remote.url ++ ")")]

/-- The message tuple of `RemoteSetter.add_remote`. -/
def addRemoteMessage (repo : Repo) (remote : Remote) : List Token :=
  [.str (repo.dest ++ ":"), .str "Add remote", .resetTok, .boldTok, .str remote.name,
   .resetTok, .brownTok, .str ("(" ++ remote.url ++ ")")]

/-- One iteration of the loop in `RemoteSetter.process` for one declared
remote, threading the task's accumulated `summary` list.  The summary is
extended before `run_git` runs, so it survives a failure.  Note that in
`add_remote`, Python's `self.summary[:-1] != "\n"` compares a list with
a string and is therefore always true, so the guard reduces to
`self.summary` being non-empty. -/
def RemoteSetter.step (env : GitEnv) (workspace_path : String) (repo : Repo)
    (summary : List Token) (remote : Remote) : Except Error Unit × List Token :=
  let full_path := workspace_path ++ "/" ++ repo.dest
  match RemoteSetter.get_remote env workspace_path repo remote.name with
  | some existing_remote =>
    if existing_remote.url ≠ remote.url then
      let summary2 := summary ++ setRemoteMessage repo remote
      match env.run_git full_path ["remote", "set-url", remote.name, remote.url] with
      | some e => (.error e, summary2)
      | none => (.ok (), summary2)
    else (.ok (), summary)
  | none =>
    let summary2 :=
      (if summary ≠ [] then summary ++ [Token.str "\n"] else summary)
        ++ addRemoteMessage repo remote
    match env.run_git full_path ["remote", "add", remote.name, remote.url] with
    | some e => (.error e, summary2)
    | none => (.ok (), summary2)

/-- The loop of `RemoteSetter.process` over `repo.remotes`. -/
def remoteLoop (env : GitEnv) (workspace_path : String) (repo : Repo) :
    List Remote → List Token → Except Error Unit × List Token
  | [], summary => (.ok (), summary)
  | r :: rest, summary =>
    match RemoteSetter.step env workspace_path repo summary r with
    | (.error e, s2) => (.error e, s2)
    | (.ok _, s2) => remoteLoop env workspace_path repo rest s2

/-- `RemoteSetter.process`: walk the declared remotes and return
`self.summary` — the whole accumulated list, not just this repo's
lines. -/
def RemoteSetter.process (env : GitEnv) (workspace_path : String) (repo : Repo)
    (summary : List Token) : Except Error (List Token) × List Token :=
  match remoteLoop env workspace_path repo repo.remotes summary with
  | (.error e, s2) => (.error e, s2)
  | (.ok _, s2) => (.ok s2, s2)

/-- Sequential processing of a list of repos by one `RemoteSetter`
instance, as the sequential executor drives it: the per-repo returned
values and the final accumulated summary. -/
def RemoteSetter.run_all (env : GitEnv) (workspace_path : String) :
    List Repo → List Token → List (Except Error (List Token)) × List Token
  | [], summary => ([], summary)
  | repo :: rest, summary =>
    ((RemoteSetter.process env workspace_path repo summary).1 ::
        (RemoteSetter.run_all env workspace_path rest
          (RemoteSetter.process env workspace_path repo summary).2).1,
      (RemoteSetter.run_all env workspace_path rest
        (RemoteSetter.process env workspace_path repo summary).2).2)

/-! ## Helper lemmas -/

/-- Every command issued by the fetch loop is a `fetch` command. -/
theorem fetchLoop_trace_head (s : Syncer) (env : GitEnv) (path : String) :
    ∀ rs : List Remote, ∀ c ∈ (fetchLoop s env path rs).2, c.2.head? = some "fetch" := by
  intro rs
  induction rs with
  | nil => intro c hc; simp [fetchLoop] at hc
  | cons r rest ih =>
    intro c hc
    simp only [fetchLoop] at hc
    rcases h : env.run_git path (fetchCmdArgs s.force r) with _ | e
    · rw [h] at hc
      simp only [List.mem_cons] at hc
      rcases hc with hc | hc
      · subst hc; simp [fetchCmdArgs]
      · exact ih c hc
    · rw [h] at hc
      simp only [List.mem_singleton] at hc
      subst hc; simp [fetchCmdArgs]

/-- Every command issued by `Syncer.fetch` is a `fetch` command. -/
theorem fetch_trace_head (s : Syncer) (env : GitEnv) (repo : Repo) :
    ∀ c ∈ (s.fetch env repo).2, c.2.head? = some "fetch" := by
  intro c hc
  unfold Syncer.fetch at hc
  rcases h : s.pick_remotes repo with e | rs
  · rw [h] at hc; simp at hc
  · rw [h] at hc
    exact fetchLoop_trace_head s env (s.repoPath repo) rs c hc

/-- When the first component of `Syncer.fetch` is a success, the pair is
determined by its trace. -/
theorem fetch_ok_pair (s : Syncer) (env : GitEnv) (repo : Repo)
    (h : (s.fetch env repo).1 = Except.ok ()) :
    s.fetch env repo = (Except.ok (), (s.fetch env repo).2) := by
  rcases hp : s.fetch env repo with ⟨res, tr⟩
  rw [hp] at h
  simp only at h
  rw [h]

/-! ## Concrete fixtures used by witnesses and counterexamples -/

/-- A git environment in which every command succeeds. -/
def allOkEnv : GitEnv :=
  { run_git := fun _ _ => none,
    run_git_captured := fun _ _ => (0, ""),
    captured_fail_msg := fun _ _ => "git command failed",
    get_current_branch := fun _ => .ok "master",
    status_dirty := fun _ => false }

/-- A repository pinned to a tag, with a single remote. -/
def tagRepo : Repo := ⟨"foo", [⟨"origin", "url0"⟩], "master", some "v1", none⟩

/-- A repository in branch mode, with a single remote. -/
def branchRepo : Repo := ⟨"foo", [⟨"origin", "url0"⟩], "master", none, none⟩

/-- A sequential syncer with no forced fetch and no remote restriction. -/
def baseSyncer : Syncer := ⟨"ws", false, none, false, []⟩

/-! ## Claims -/

/-- C2: for a repository synchronized to a ref (tag or sha1 set, so that
`refOf` yields a ref) whose fetch succeeded, a dirty working tree makes
the pipeline fail with `<path> is dirty, skipping` and no `reset`
command is ever issued, while on a clean tree the `reset --hard <ref>`
command is issued. -/
theorem c2_dirty_ref_no_reset (s : Syncer) (env : GitEnv) (repo : Repo) (r : String)
    (href : refOf repo = some r)
    (hfetch : (s.fetch env repo).1 = Except.ok ()) :
    (env.status_dirty (s.repoPath repo) = true →
      (s.process env repo).result =
        Except.error ⟨s.repoPath repo ++ " is dirty, skipping"⟩ ∧
      ∀ c ∈ (s.process env repo).trace, c.2.head? ≠ some "reset") ∧
    (env.status_dirty (s.repoPath repo) = false →
      (s.repoPath repo, ["reset", "--hard", r]) ∈ (s.process env repo).trace) := by
  have hf := fetch_ok_pair s env repo hfetch
  constructor
  · intro hd
    have hproc : s.process env repo =
        ⟨Except.error ⟨s.repoPath repo ++ " is dirty, skipping"⟩,
          (s.fetch env repo).2, s.bad_branches⟩ := by
      rw [Syncer.process, hf, href]
      simp [Syncer.sync_repo_to_ref, hd]
    refine ⟨by rw [hproc], ?_⟩
    intro c hc
    rw [hproc] at hc
    have := fetch_trace_head s env repo c hc
    rw [this]
    intro hcontra
    exact absurd (Option.some.inj hcontra) (by decide)
  · intro hd
    rw [Syncer.process, hf, href]
    simp only [Syncer.sync_repo_to_ref, hd]
    rcases h1 : env.run_git (s.repoPath repo) ["reset", "--hard", r] with _ | e
    · simp only [Bool.false_eq_true, if_false]
      rcases h2 : env.run_git (s.repoPath repo) submoduleCmdArgs with _ | e2 <;>
        simp [Syncer.update_submodules, h2]
    · simp

/-- Witness for C2 at a concrete dirty repository: the hypotheses hold
and the dirty branch of the conclusion applies. -/
theorem c2_dirty_ref_no_reset_witness :
    refOf tagRepo = some "v1" ∧
    ((baseSyncer.fetch { allOkEnv with status_dirty := fun _ => true } tagRepo).1 =
      Except.ok ()) ∧
    (({ allOkEnv with status_dirty := fun _ => true } : GitEnv).status_dirty
        (baseSyncer.repoPath tagRepo) = true →
      (baseSyncer.process { allOkEnv with status_dirty := fun _ => true } tagRepo).result =
        Except.error ⟨baseSyncer.repoPath tagRepo ++ " is dirty, skipping"⟩ ∧
      ∀ c ∈ (baseSyncer.process { allOkEnv with status_dirty := fun _ => true } tagRepo).trace,
        c.2.head? ≠ some "reset") := by
  refine ⟨by decide, by decide, ?_⟩
  exact (c2_dirty_ref_no_reset baseSyncer { allOkEnv with status_dirty := fun _ => true }
    tagRepo "v1" (by decide) (by decide)).1

/-- An environment in which every command succeeds but the checked-out
branch is `devel`. -/
def develEnv : GitEnv := { allOkEnv with get_current_branch := fun _ => .ok "devel" }

/-- C1 counterexample: a branch-mode repository whose current branch
`devel` differs from `repo.branch = master`; the whole pipeline runs and
the outcome is a success carrying no error — the mismatch is only
recorded in the task's `bad_branches` list, so the claim that the
outcome carries an `IncorrectBranch` error is false here. -/
theorem c1_counterexample :
    (baseSyncer.process develEnv branchRepo).result = Except.ok [] ∧
    (baseSyncer.process develEnv branchRepo).bad_branches =
      [⟨"foo", "devel", "master"⟩] ∧
    ("devel" : String) ≠ branchRepo.branch := by
  refine ⟨by decide, by decide, by decide⟩

/-- C1 (amended): in branch mode (either execution mode), when the
current branch is non-empty and differs from `repo.branch`, the syncer
records a `RepoAtIncorrectBranchDescription(dest, actual, expected)` in
its `bad_branches` list and continues: the fast-forward step's commands
and the submodule update are still issued, and when those remaining
steps succeed the repository's outcome is a success carrying no error;
the mismatch is instead reported at the end by `display_bad_branches`,
which prints the error line with a table row for the repository and
raises `BadBranches`. -/
theorem c1_wrong_branch_recorded (s : Syncer) (env : GitEnv) (repo : Repo) (b : String)
    (summ : Option (List String)) (tr2 : List Cmd)
    (href : refOf repo = none)
    (hfetch : (s.fetch env repo).1 = Except.ok ())
    (hbr : env.get_current_branch (s.repoPath repo) = Except.ok b)
    (hne : b ≠ "") (hdiff : b ≠ repo.branch)
    (hsb : ({ s with bad_branches := s.bad_branches ++
        ([⟨repo.dest, b, repo.branch⟩] : List RepoAtIncorrectBranchDescription) } :
        Syncer).sync_repo_to_branch env repo = (Except.ok summ, tr2))
    (hsub : env.run_git (s.repoPath repo) submoduleCmdArgs = none) :
    (∃ lines, (s.process env repo).result = Except.ok lines) ∧
    (s.process env repo).bad_branches =
      s.bad_branches ++ [⟨repo.dest, b, repo.branch⟩] ∧
    (s.process env repo).trace =
      (s.fetch env repo).2 ++ tr2 ++ [(s.repoPath repo, submoduleCmdArgs)] ∧
    ({ s with bad_branches := (s.process env repo).bad_branches } :
        Syncer).display_bad_branches =
      (BadBranchEvent.errorLine "Some projects were not on the correct branch" ::
        (s.bad_branches ++
          ([⟨repo.dest, b, repo.branch⟩] : List RepoAtIncorrectBranchDescription)).map
          (fun x => BadBranchEvent.tableRow x.dest x.actual x.expected),
       true) := by
  have hf := fetch_ok_pair s env repo hfetch
  have hcb : s.check_branch env repo =
      Except.ok (s.bad_branches ++ [⟨repo.dest, b, repo.branch⟩]) := by
    rw [Syncer.check_branch, hbr]
    simp [hne, hdiff]
  simp only [Syncer.repoPath] at hsub
  have hproc : ∃ lines, s.process env repo =
      ⟨Except.ok lines,
        (s.fetch env repo).2 ++ tr2 ++ [(s.repoPath repo, submoduleCmdArgs)],
        s.bad_branches ++ [⟨repo.dest, b, repo.branch⟩]⟩ := by
    rcases summ with _ | lines
    · refine ⟨[], ?_⟩
      rw [Syncer.process, hf, href, hcb]
      simp [hsb, Syncer.update_submodules, Syncer.repoPath, hsub]
    · refine ⟨if lines ≠ [] then lines else [], ?_⟩
      rw [Syncer.process, hf, href, hcb]
      simp [hsb, Syncer.update_submodules, Syncer.repoPath, hsub]
  obtain ⟨lines, hproc⟩ := hproc
  refine ⟨⟨lines, by rw [hproc]⟩, by rw [hproc], by rw [hproc], ?_⟩
  rw [hproc]
  rw [Syncer.display_bad_branches]
  simp

/-- Witness for C1 (amended) at the concrete wrong-branch fixture, in
sequential mode with a successful fast-forward merge. -/
theorem c1_wrong_branch_recorded_witness :
    refOf branchRepo = none ∧
    (baseSyncer.fetch develEnv branchRepo).1 = Except.ok () ∧
    develEnv.get_current_branch (baseSyncer.repoPath branchRepo) = Except.ok "devel" ∧
    ("devel" : String) ≠ "" ∧
    ("devel" : String) ≠ branchRepo.branch ∧
    ({ baseSyncer with bad_branches := baseSyncer.bad_branches ++
        ([⟨branchRepo.dest, "devel", branchRepo.branch⟩] :
          List RepoAtIncorrectBranchDescription) } :
        Syncer).sync_repo_to_branch develEnv branchRepo =
      (Except.ok none, [(baseSyncer.repoPath branchRepo, mergeCmdArgs)]) ∧
    develEnv.run_git (baseSyncer.repoPath branchRepo) submoduleCmdArgs = none ∧
    (∃ lines, (baseSyncer.process develEnv branchRepo).result = Except.ok lines) ∧
    (baseSyncer.process develEnv branchRepo).bad_branches =
      baseSyncer.bad_branches ++ [⟨branchRepo.dest, "devel", branchRepo.branch⟩] ∧
    (baseSyncer.process develEnv branchRepo).trace =
      (baseSyncer.fetch develEnv branchRepo).2 ++
        [(baseSyncer.repoPath branchRepo, mergeCmdArgs)] ++
        [(baseSyncer.repoPath branchRepo, submoduleCmdArgs)] ∧
    ({ baseSyncer with
        bad_branches := (baseSyncer.process develEnv branchRepo).bad_branches } :
        Syncer).display_bad_branches =
      (BadBranchEvent.errorLine "Some projects were not on the correct branch" ::
        (baseSyncer.bad_branches ++
          ([⟨branchRepo.dest, "devel", branchRepo.branch⟩] :
            List RepoAtIncorrectBranchDescription)).map
          (fun x => BadBranchEvent.tableRow x.dest x.actual x.expected),
       true) := by
  have h := c1_wrong_branch_recorded baseSyncer develEnv branchRepo "devel" none
    [(baseSyncer.repoPath branchRepo, mergeCmdArgs)] (by decide) (by decide) rfl
    (by decide) (by decide) (by decide) rfl
  exact ⟨by decide, by decide, rfl, by decide, by decide, by decide, rfl,
    h.1, h.2.1, h.2.2.1, h.2.2.2⟩

/-- A syncer whose `remote_name` is set to the empty string. -/
def emptyNameSyncer : Syncer := ⟨"ws", false, some "", false, []⟩

/-- C3 counterexample: with `remote_name` set (to `""`) and matching no
remote of the repository, the claim predicts no fetch and a
`Remote ... not found` error; the code instead treats the falsy name
like an unset one, selects all remotes and fetches them without error. -/
theorem c3_counterexample :
    emptyNameSyncer.remote_name = some "" ∧
    (∀ r ∈ branchRepo.remotes, r.name ≠ "") ∧
    emptyNameSyncer.pick_remotes branchRepo = Except.ok branchRepo.remotes ∧
    emptyNameSyncer.fetch allOkEnv branchRepo =
      (Except.ok (), [("ws/foo", ["fetch", "--tags", "--prune", "origin"])]) := by
  refine ⟨rfl, by decide, by decide, by decide⟩

/-- C3 (amended): when `remote_name` is set to a non-empty name, a
matching remote is selected alone and is the only remote fetched, and a
missing match raises `Remote <name> not found for repository <dest>`
before any fetch; when `remote_name` is unset — or set to the empty
string, which Python's truthiness test treats the same way — all remotes
are selected in their manifest order. -/
theorem c3_pick_remotes (s : Syncer) (env : GitEnv) (repo : Repo) :
    (∀ n, s.remote_name = some n → n ≠ "" →
      (∀ r, repo.remotes.find? (fun x => x.name = n) = some r →
        s.pick_remotes repo = Except.ok [r] ∧ r.name = n ∧ r ∈ repo.remotes ∧
        (s.fetch env repo).2 = [(s.repoPath repo, fetchCmdArgs s.force r)]) ∧
      ((∀ r ∈ repo.remotes, r.name ≠ n) →
        s.fetch env repo =
          (Except.error ⟨"Remote " ++ n ++ " not found for repository " ++ repo.dest⟩,
            []))) ∧
    (s.remote_name = none → s.pick_remotes repo = Except.ok repo.remotes) ∧
    (s.remote_name = some "" → s.pick_remotes repo = Except.ok repo.remotes) := by
  refine ⟨?_, ?_, ?_⟩
  · intro n hn hne
    constructor
    · intro r hr
      have hpick : s.pick_remotes repo = Except.ok [r] := by
        rw [Syncer.pick_remotes, hn]
        simp [hne, hr]
      have hname : r.name = n := by
        have := List.find?_some hr
        simpa using this
      have hmem : r ∈ repo.remotes := List.mem_of_find?_eq_some hr
      refine ⟨hpick, hname, hmem, ?_⟩
      rw [Syncer.fetch, hpick]
      rcases h : env.run_git (s.repoPath repo) (fetchCmdArgs s.force r) with _ | e <;>
        simp [fetchLoop, h]
    · intro hno
      have hfind : repo.remotes.find? (fun x => x.name = n) = none := by
        rw [List.find?_eq_none]
        intro x hx
        simp [hno x hx]
      have hpick : s.pick_remotes repo =
          Except.error ⟨"Remote " ++ n ++ " not found for repository " ++ repo.dest⟩ := by
        rw [Syncer.pick_remotes, hn]
        simp [hne, hfind]
      rw [Syncer.fetch, hpick]
  · intro hn
    rw [Syncer.pick_remotes, hn]
  · intro hn
    rw [Syncer.pick_remotes, hn]
    simp

/-- Witness for C3 (amended): a named remote that matches, one that does
not, and the unset case, at concrete inputs. -/
theorem c3_pick_remotes_witness :
    (⟨"ws", false, some "origin", false, []⟩ : Syncer).remote_name = some "origin" ∧
    ("origin" : String) ≠ "" ∧
    branchRepo.remotes.find? (fun x => x.name = "origin") = some ⟨"origin", "url0"⟩ ∧
    ((⟨"ws", false, some "origin", false, []⟩ : Syncer).pick_remotes branchRepo =
        Except.ok [⟨"origin", "url0"⟩] ∧
      (⟨"origin", "url0"⟩ : Remote).name = "origin" ∧
      (⟨"origin", "url0"⟩ : Remote) ∈ branchRepo.remotes ∧
      ((⟨"ws", false, some "origin", false, []⟩ : Syncer).fetch allOkEnv branchRepo).2 =
        [(( ⟨"ws", false, some "origin", false, []⟩ : Syncer).repoPath branchRepo,
          fetchCmdArgs false ⟨"origin", "url0"⟩)]) ∧
    (baseSyncer.remote_name = none ∧ baseSyncer.pick_remotes branchRepo =
      Except.ok branchRepo.remotes) := by
  refine ⟨rfl, by decide, by decide, ?_, rfl, ?_⟩
  · exact ((c3_pick_remotes ⟨"ws", false, some "origin", false, []⟩ allOkEnv
      branchRepo).1 "origin" rfl (by decide)).1 ⟨"origin", "url0"⟩ (by decide)
  · exact (c3_pick_remotes baseSyncer allOkEnv branchRepo).2.1 rfl

/-- When every fetch command succeeds, the fetch loop succeeds and its
trace is exactly one fetch command per remote, in order. -/
theorem fetchLoop_ok (s : Syncer) (env : GitEnv) (path : String) :
    ∀ rs : List Remote, (∀ r ∈ rs, env.run_git path (fetchCmdArgs s.force r) = none) →
      fetchLoop s env path rs =
        (Except.ok (), rs.map (fun r => (path, fetchCmdArgs s.force r))) := by
  intro rs
  induction rs with
  | nil => intro _; rfl
  | cons r rest ih =>
    intro h
    have hr : env.run_git path (fetchCmdArgs s.force r) = none := h r (by simp)
    have hrest := ih (fun x hx => h x (by simp [hx]))
    simp [fetchLoop, hr, hrest]

/-- A failing fetch command aborts the loop: the preceding successful
fetches and the failing one are issued, nothing later, and the error is
`fetch from '<name>' failed`. -/
theorem fetchLoop_fail (s : Syncer) (env : GitEnv) (path : String) :
    ∀ (rs1 : List Remote) (r : Remote) (rs2 : List Remote) (e : Error),
      (∀ x ∈ rs1, env.run_git path (fetchCmdArgs s.force x) = none) →
      env.run_git path (fetchCmdArgs s.force r) = some e →
      fetchLoop s env path (rs1 ++ r :: rs2) =
        (Except.error ⟨"fetch from " ++ sq ++ r.name ++ sq ++ " failed"⟩,
          rs1.map (fun x => (path, fetchCmdArgs s.force x)) ++ [(path, fetchCmdArgs s.force r)]) := by
  intro rs1
  induction rs1 with
  | nil =>
    intro r rs2 e _ hr
    simp [fetchLoop, hr]
  | cons x rest ih =>
    intro r rs2 e h1 hr
    have hx : env.run_git path (fetchCmdArgs s.force x) = none := h1 x (by simp)
    have := ih r rs2 e (fun y hy => h1 y (by simp [hy])) hr
    simp [fetchLoop, hx, this]

/-- A fetch error short-circuits `Syncer.process`. -/
theorem process_fetch_error (s : Syncer) (env : GitEnv) (repo : Repo) (e : Error)
    (tr : List Cmd) (h : s.fetch env repo = (Except.error e, tr)) :
    s.process env repo = ⟨Except.error e, tr, s.bad_branches⟩ := by
  rw [Syncer.process, h]

/-- Commands issued by `sync_repo_to_ref` are `reset` commands. -/
theorem sync_repo_to_ref_trace_head (s : Syncer) (env : GitEnv) (repo : Repo) (r : String) :
    ∀ c ∈ (s.sync_repo_to_ref env repo r).2, c.2.head? = some "reset" := by
  intro c hc
  rw [Syncer.sync_repo_to_ref] at hc
  rcases hd : env.status_dirty (s.repoPath repo) with _ | _ <;> rw [hd] at hc
  · rcases h : env.run_git (s.repoPath repo) ["reset", "--hard", r] with _ | e <;>
      rw [h] at hc <;> simp at hc <;> simp [hc]
  · simp at hc

/-- Commands issued by `sync_repo_to_branch` are `log` or `merge`
commands. -/
theorem sync_repo_to_branch_trace_head (s : Syncer) (env : GitEnv) (repo : Repo) :
    ∀ c ∈ (s.sync_repo_to_branch env repo).2,
      c.2.head? = some "log" ∨ c.2.head? = some "merge" := by
  intro c hc
  rw [Syncer.sync_repo_to_branch] at hc
  rcases hp : s.parallel with _ | _ <;> rw [hp] at hc
  · simp only [Bool.false_eq_true, if_false] at hc
    rcases h : env.run_git (s.repoPath repo) mergeCmdArgs with _ | e <;>
      rw [h] at hc <;> simp at hc <;> simp [hc, mergeCmdArgs]
  · simp only [if_true] at hc
    by_cases hlog : (env.run_git_captured (s.repoPath repo) logCmdArgs).1 = 0 ∧
        (env.run_git_captured (s.repoPath repo) logCmdArgs).2 = ""
    · rw [if_pos hlog] at hc
      simp at hc
      simp [hc, logCmdArgs]
    · rw [if_neg hlog] at hc
      by_cases hm : (env.run_git_captured (s.repoPath repo) mergeCmdArgs).1 ≠ 0
      · rw [if_pos hm] at hc
        simp at hc
        rcases hc with hc | hc <;> simp [hc, logCmdArgs, mergeCmdArgs]
      · rw [if_neg hm] at hc
        simp at hc
        rcases hc with hc | hc <;> simp [hc, logCmdArgs, mergeCmdArgs]

/-- Commands issued by `update_submodules` are `submodule` commands. -/
theorem update_submodules_trace_head (s : Syncer) (env : GitEnv) (repo : Repo) :
    ∀ c ∈ (s.update_submodules env repo).2, c.2.head? = some "submodule" := by
  intro c hc
  rw [Syncer.update_submodules] at hc
  rcases h : env.run_git (s.repoPath repo) submoduleCmdArgs with _ | e <;>
    rw [h] at hc <;> simp at hc <;> simp [hc, submoduleCmdArgs]

/-- The trace of `Syncer.process` is the fetch trace followed by
non-fetch commands. -/
theorem process_trace_split (s : Syncer) (env : GitEnv) (repo : Repo) :
    ∃ rest, (s.process env repo).trace = (s.fetch env repo).2 ++ rest ∧
      ∀ c ∈ rest, c.2.head? ≠ some "fetch" := by
  rcases hf : s.fetch env repo with ⟨res, tr1⟩
  have htr1 : (s.fetch env repo).2 = tr1 := by rw [hf]
  rcases res with e | u
  · exact ⟨[], by rw [Syncer.process, hf]; simp, by simp⟩
  · rcases hro : refOf repo with _ | r
    · rcases hcb : s.check_branch env repo with e | bb
      · exact ⟨[], by rw [Syncer.process, hf, hro, hcb]; simp, by simp⟩
      · rcases hsb : ({ s with bad_branches := bb } : Syncer).sync_repo_to_branch env repo
          with ⟨sres, tr2⟩
        have htr2 : ∀ c ∈ tr2, c.2.head? ≠ some "fetch" := by
          intro c hc
          have := sync_repo_to_branch_trace_head { s with bad_branches := bb } env repo c
            (by rw [hsb]; exact hc)
          rcases this with h | h <;> rw [h] <;> decide
        rcases sres with e | summ
        · exact ⟨tr2, by rw [Syncer.process, hf, hro, hcb]; simp [hsb], htr2⟩
        · rcases hsm : ({ s with bad_branches := bb } : Syncer).update_submodules env repo
            with ⟨mres, tr3⟩
          have htr3 : ∀ c ∈ tr3, c.2.head? ≠ some "fetch" := by
            intro c hc
            have := update_submodules_trace_head { s with bad_branches := bb } env repo c
              (by rw [hsm]; exact hc)
            rw [this]; decide
          refine ⟨tr2 ++ tr3, ?_, ?_⟩
          · rcases mres with e | u2 <;>
              rw [Syncer.process, hf, hro, hcb] <;> simp [hsb, hsm]
          · intro c hc
            rcases List.mem_append.mp hc with h | h
            · exact htr2 c h
            · exact htr3 c h
    · rcases hsr : s.sync_repo_to_ref env repo r with ⟨rres, tr2⟩
      have htr2 : ∀ c ∈ tr2, c.2.head? ≠ some "fetch" := by
        intro c hc
        have := sync_repo_to_ref_trace_head s env repo r c (by rw [hsr]; exact hc)
        rw [this]; decide
      rcases rres with e | u
      · exact ⟨tr2, by rw [Syncer.process, hf, hro]; simp [hsr], htr2⟩
      · rcases hsm : s.update_submodules env repo with ⟨mres, tr3⟩
        have htr3 : ∀ c ∈ tr3, c.2.head? ≠ some "fetch" := by
          intro c hc
          have := update_submodules_trace_head s env repo c (by rw [hsm]; exact hc)
          rw [this]; decide
        refine ⟨tr2 ++ tr3, ?_, ?_⟩
        · rcases mres with e | u2 <;>
            rw [Syncer.process, hf, hro] <;> simp [hsr, hsm]
        · intro c hc
          rcases List.mem_append.mp hc with h | h
          · exact htr2 c h
          · exact htr3 c h

/-- C4: for the remotes selected by `_pick_remotes`, (a) when every fetch
command succeeds, the fetch commands issued in the whole sync are
exactly `fetch --tags --prune <remote>` — with `--force` appended iff
the syncer was constructed with force — once per selected remote, in
order; (b) a failing fetch aborts the repository's pipeline with the
error `fetch from '<name>' failed`, issuing only the preceding fetches
and the failing one. -/
theorem c4_fetch_commands (s : Syncer) (env : GitEnv) (repo : Repo)
    (rs : List Remote) (hpick : s.pick_remotes repo = Except.ok rs) :
    ((∀ r ∈ rs, env.run_git (s.repoPath repo) (fetchCmdArgs s.force r) = none) →
      (s.fetch env repo = (Except.ok (),
        rs.map (fun r => (s.repoPath repo,
          ["fetch", "--tags", "--prune", r.name] ++ (if s.force then ["--force"] else []))))) ∧
      (s.process env repo).trace.filter (fun c => c.2.head? == some "fetch") =
        rs.map (fun r => (s.repoPath repo, fetchCmdArgs s.force r))) ∧
    (∀ (rs1 : List Remote) (r : Remote) (rs2 : List Remote) (e : Error),
      rs = rs1 ++ r :: rs2 →
      (∀ x ∈ rs1, env.run_git (s.repoPath repo) (fetchCmdArgs s.force x) = none) →
      env.run_git (s.repoPath repo) (fetchCmdArgs s.force r) = some e →
      s.process env repo =
        ⟨Except.error ⟨"fetch from " ++ sq ++ r.name ++ sq ++ " failed"⟩,
          rs1.map (fun x => (s.repoPath repo, fetchCmdArgs s.force x))
            ++ [(s.repoPath repo, fetchCmdArgs s.force r)],
          s.bad_branches⟩) := by
  constructor
  · intro h
    have hfetch_eq : s.fetch env repo =
        (Except.ok (), rs.map (fun r => (s.repoPath repo, fetchCmdArgs s.force r))) := by
      rw [Syncer.fetch, hpick]
      exact fetchLoop_ok s env (s.repoPath repo) rs h
    constructor
    · rw [hfetch_eq]
      simp [fetchCmdArgs]
    · obtain ⟨rest, htr, hrest⟩ := process_trace_split s env repo
      rw [htr, hfetch_eq]
      rw [List.filter_append]
      have h1 : (rs.map (fun r => (s.repoPath repo, fetchCmdArgs s.force r))).filter
          (fun c => c.2.head? == some "fetch") =
          rs.map (fun r => (s.repoPath repo, fetchCmdArgs s.force r)) := by
        rw [List.filter_eq_self]
        intro c hc
        simp only [List.mem_map] at hc
        obtain ⟨r, _, hr⟩ := hc
        subst hr
        simp [fetchCmdArgs]
      have h2 : rest.filter (fun c => c.2.head? == some "fetch") = [] := by
        rw [List.filter_eq_nil_iff]
        intro c hc
        simpa using hrest c hc
      rw [h1, h2, List.append_nil]
  · intro rs1 r rs2 e hsplit h1 hfail
    have hfl := fetchLoop_fail s env (s.repoPath repo) rs1 r rs2 e h1 hfail
    have hfe : s.fetch env repo =
        (Except.error ⟨"fetch from " ++ sq ++ r.name ++ sq ++ " failed"⟩,
          rs1.map (fun x => (s.repoPath repo, fetchCmdArgs s.force x))
            ++ [(s.repoPath repo, fetchCmdArgs s.force r)]) := by
      rw [Syncer.fetch, hpick, hsplit]
      exact hfl
    exact process_fetch_error s env repo _ _ hfe

/-- Witness for C4: one remote, successful fetch, exactly one fetch
command in the whole sync trace; and a failing fetch aborting. -/
theorem c4_fetch_commands_witness :
    baseSyncer.pick_remotes branchRepo = Except.ok branchRepo.remotes ∧
    (∀ r ∈ branchRepo.remotes,
      allOkEnv.run_git (baseSyncer.repoPath branchRepo) (fetchCmdArgs baseSyncer.force r) = none) ∧
    (baseSyncer.process allOkEnv branchRepo).trace.filter
        (fun c => c.2.head? == some "fetch") =
      branchRepo.remotes.map
        (fun r => (baseSyncer.repoPath branchRepo, fetchCmdArgs baseSyncer.force r)) := by
  refine ⟨by decide, by decide, ?_⟩
  exact ((c4_fetch_commands baseSyncer allOkEnv branchRepo branchRepo.remotes
    (by decide)).1 (by decide)).2

/-- A parallel-mode syncer. -/
def parSyncer : Syncer := ⟨"ws", false, none, true, []⟩

/-- An environment in which the branch is behind upstream and the
captured fast-forward merge fails; the adapter's error message for a
checked captured run is `git command failed`. -/
def mergeFailEnv : GitEnv :=
  { allOkEnv with
    run_git_captured := fun _ args => if args.head? = some "log" then (0, "x") else (1, ""),
    captured_fail_msg := fun _ _ => "git command failed" }

/-- C5 counterexample: in parallel mode a failing fast-forward merge is
fatal, but the repository's error is the adapter's own message — here
`git command failed` — not `updating branch failed`, contradicting the
claim that the merge failure is reported with `updating branch failed`
regardless of mode. -/
theorem c5_counterexample :
    (parSyncer.sync_repo_to_branch mergeFailEnv branchRepo).1 =
      Except.error ⟨"git command failed"⟩ ∧
    (⟨"git command failed"⟩ : Error) ≠ ⟨"updating branch failed"⟩ := by
  refine ⟨by decide, by decide⟩

/-- C5 (amended): a failing fast-forward merge is fatal for the
repository in both modes; in sequential mode it is reported as
`updating branch failed` — and at the pipeline level the sync stops
there, before the submodule update — while in parallel mode the
captured merge's non-zero exit raises the adapter's own error. -/
theorem c5_merge_failure (s : Syncer) (env : GitEnv) (repo : Repo) :
    (s.parallel = false → ∀ e, env.run_git (s.repoPath repo) mergeCmdArgs = some e →
      s.sync_repo_to_branch env repo =
        (Except.error ⟨"updating branch failed"⟩, [(s.repoPath repo, mergeCmdArgs)])) ∧
    (s.parallel = false → refOf repo = none →
      (s.fetch env repo).1 = Except.ok () →
      ∀ bb, s.check_branch env repo = Except.ok bb →
      ∀ e, env.run_git (s.repoPath repo) mergeCmdArgs = some e →
      s.process env repo =
        ⟨Except.error ⟨"updating branch failed"⟩,
          (s.fetch env repo).2 ++ [(s.repoPath repo, mergeCmdArgs)], bb⟩) ∧
    (s.parallel = true →
      ¬((env.run_git_captured (s.repoPath repo) logCmdArgs).1 = 0 ∧
        (env.run_git_captured (s.repoPath repo) logCmdArgs).2 = "") →
      (env.run_git_captured (s.repoPath repo) mergeCmdArgs).1 ≠ 0 →
      s.sync_repo_to_branch env repo =
        (Except.error ⟨env.captured_fail_msg (s.repoPath repo) mergeCmdArgs⟩,
          [(s.repoPath repo, logCmdArgs), (s.repoPath repo, mergeCmdArgs)])) := by
  have hseq : s.parallel = false → ∀ e, env.run_git (s.repoPath repo) mergeCmdArgs = some e →
      s.sync_repo_to_branch env repo =
        (Except.error ⟨"updating branch failed"⟩, [(s.repoPath repo, mergeCmdArgs)]) := by
    intro hpar e hm
    rw [Syncer.sync_repo_to_branch, hpar, hm]
    simp
  refine ⟨hseq, ?_, ?_⟩
  · intro hpar hro hfetch bb hcb e hm
    have hf := fetch_ok_pair s env repo hfetch
    have hsb : ({ s with bad_branches := bb } : Syncer).sync_repo_to_branch env repo =
        (Except.error ⟨"updating branch failed"⟩, [(s.repoPath repo, mergeCmdArgs)]) := by
      exact hseq hpar e hm
    rw [Syncer.process, hf, hro, hcb]
    simp [hsb]
  · intro hpar hlog hm
    rw [Syncer.sync_repo_to_branch, hpar]
    rw [if_pos rfl, if_neg hlog, if_pos hm]

/-- Witness for C5 (amended): sequential merge failure at a concrete
environment, reported as `updating branch failed` and stopping the
pipeline. -/
theorem c5_merge_failure_witness :
    baseSyncer.parallel = false ∧
    refOf branchRepo = none ∧
    ({ allOkEnv with run_git := fun _ args =>
        if args.head? = some "merge" then some ⟨"boom"⟩ else none } : GitEnv).run_git
      (baseSyncer.repoPath branchRepo) mergeCmdArgs = some ⟨"boom"⟩ ∧
    baseSyncer.process
        { allOkEnv with run_git := fun _ args =>
          if args.head? = some "merge" then some ⟨"boom"⟩ else none } branchRepo =
      ⟨Except.error ⟨"updating branch failed"⟩,
        (baseSyncer.fetch
          { allOkEnv with run_git := fun _ args =>
            if args.head? = some "merge" then some ⟨"boom"⟩ else none } branchRepo).2
          ++ [(baseSyncer.repoPath branchRepo, mergeCmdArgs)], []⟩ := by
  refine ⟨rfl, by decide, by decide, ?_⟩
  exact (c5_merge_failure baseSyncer
    { allOkEnv with run_git := fun _ args =>
      if args.head? = some "merge" then some ⟨"boom"⟩ else none } branchRepo).2.1
    rfl (by decide) (by decide) [] (by decide) ⟨"boom"⟩ (by decide)

/-- C9: in parallel mode, when `log --oneline HEAD..@\x7bupstream\x7d`
exits 0 with empty output, no merge command is issued and no summary is
produced; otherwise the captured merge is run, and when it succeeds the
summary block is the repository's `dest`, an underline of dashes of the
same length, and the captured merge output (with a final newline
ensured). -/
theorem c9_parallel_branch (s : Syncer) (env : GitEnv) (repo : Repo)
    (hpar : s.parallel = true) :
    (env.run_git_captured (s.repoPath repo) logCmdArgs = ((0 : Int), "") →
      s.sync_repo_to_branch env repo = (Except.ok none, [(s.repoPath repo, logCmdArgs)])) ∧
    (¬((env.run_git_captured (s.repoPath repo) logCmdArgs).1 = 0 ∧
        (env.run_git_captured (s.repoPath repo) logCmdArgs).2 = "") →
      (s.sync_repo_to_branch env repo).2 =
        [(s.repoPath repo, logCmdArgs), (s.repoPath repo, mergeCmdArgs)] ∧
      ((env.run_git_captured (s.repoPath repo) mergeCmdArgs).1 = 0 →
        (s.sync_repo_to_branch env repo).1 =
          Except.ok (some [repo.dest ++ "\n" ++ dashes repo.dest.length ++ "\n",
            ensureNewline (env.run_git_captured (s.repoPath repo) mergeCmdArgs).2]))) := by
  constructor
  · intro hlog
    rw [Syncer.sync_repo_to_branch, hpar, hlog]
    simp
  · intro hlog
    rw [Syncer.sync_repo_to_branch, hpar]
    rw [if_pos rfl, if_neg hlog]
    by_cases hm : (env.run_git_captured (s.repoPath repo) mergeCmdArgs).1 ≠ 0
    · rw [if_pos hm]
      exact ⟨rfl, fun h => absurd h hm⟩
    · rw [if_neg hm]
      exact ⟨rfl, fun _ => rfl⟩

/-- Witness for C9: a concrete up-to-date branch (no merge, no summary)
via the first conjunct of the theorem. -/
theorem c9_parallel_branch_witness :
    parSyncer.parallel = true ∧
    allOkEnv.run_git_captured (parSyncer.repoPath branchRepo) logCmdArgs = ((0 : Int), "") ∧
    parSyncer.sync_repo_to_branch allOkEnv branchRepo =
      (Except.ok none, [(parSyncer.repoPath branchRepo, logCmdArgs)]) := by
  refine ⟨rfl, rfl, ?_⟩
  exact (c9_parallel_branch parSyncer allOkEnv branchRepo rfl).1 rfl

/-- C7: `handle_result` raises `ExecutorFailed` iff the error map is
non-empty; when summaries exist the (truthy) optional title and then
each summary are printed before any error output; when errors exist the
`error_message` line is printed followed by each `(item, error)` pair,
and everything printed before that error block is plain info output. -/
theorem c7_handle_result (c : OutcomeCollection) (error_message : String)
    (summary_title : Option String) :
    ((c.handle_result error_message summary_title).2 = true ↔ c.errors ≠ []) ∧
    (c.summary ≠ [] → ∀ t, summary_title = some t → t ≠ "" →
      (c.handle_result error_message summary_title).1 =
        Event.info t :: c.summary.map Event.info ++
          (if c.errors ≠ [] then
            Event.err error_message :: c.errors.map (fun p => Event.errorItem p.1 p.2)
          else [])) ∧
    (c.errors ≠ [] →
      ∃ pre, (c.handle_result error_message summary_title).1 =
        pre ++ Event.err error_message ::
          c.errors.map (fun p => Event.errorItem p.1 p.2) ∧
        ∀ ev ∈ pre, ∃ m, ev = Event.info m) := by
  refine ⟨?_, ?_, ?_⟩
  · unfold OutcomeCollection.handle_result
    by_cases he : c.errors = [] <;> simp [he]
  · intro hs t ht hne
    unfold OutcomeCollection.handle_result
    subst ht
    by_cases he : c.errors = [] <;> simp [he, hs, hne]
  · intro he
    unfold OutcomeCollection.handle_result
    by_cases hs : c.summary = []
    · refine ⟨[], ?_, by simp⟩
      simp [he, hs]
    · refine ⟨(match summary_title with
        | some t => if t ≠ "" then [Event.info t] else []
        | none => []) ++ c.summary.map Event.info, ?_, ?_⟩
      · simp [he, hs]
      · intro ev hev
        rcases List.mem_append.mp hev with h | h
        · rcases summary_title with _ | t
          · simp at h
          · by_cases ht : t = ""
            · simp [ht] at h
            · simp [ht] at h
              exact ⟨t, h⟩
        · obtain ⟨m, _, hm⟩ := List.mem_map.mp h
          exact ⟨m, hm.symm⟩

/-- Witness for C7 at a concrete collection with one summary, one error
and a non-empty title. -/
theorem c7_handle_result_witness :
    (⟨["did a thing"], [("foo", ⟨"boom"⟩)]⟩ : OutcomeCollection).summary ≠ [] ∧
    (some "Summary" : Option String) = some "Summary" ∧
    ("Summary" : String) ≠ "" ∧
    (⟨["did a thing"], [("foo", ⟨"boom"⟩)]⟩ : OutcomeCollection).errors ≠ [] ∧
    ((⟨["did a thing"], [("foo", ⟨"boom"⟩)]⟩ : OutcomeCollection).handle_result
        "sync failed" (some "Summary")).2 = true ∧
    ((⟨["did a thing"], [("foo", ⟨"boom"⟩)]⟩ : OutcomeCollection).handle_result
        "sync failed" (some "Summary")).1 =
      Event.info "Summary" ::
        ([("did a thing" : String)].map Event.info) ++
          (if ([("foo", (⟨"boom"⟩ : Error))] : List (String × Error)) ≠ [] then
            Event.err "sync failed" ::
              ([("foo", (⟨"boom"⟩ : Error))].map (fun p => Event.errorItem p.1 p.2))
          else []) := by
  refine ⟨by decide, rfl, by decide, by decide, ?_, ?_⟩
  · exact (c7_handle_result ⟨["did a thing"], [("foo", ⟨"boom"⟩)]⟩
      "sync failed" (some "Summary")).1.mpr (by decide)
  · exact (c7_handle_result ⟨["did a thing"], [("foo", ⟨"boom"⟩)]⟩
      "sync failed" (some "Summary")).2.1 (by decide) "Summary" rfl (by decide)

/-- A minimal concrete task over `Nat`, used as a fixture: every item is
described by `"item"` plus its decimal value and processing always
returns the empty (successful) outcome. -/
def natTask : Task Nat :=
  { describe_item := fun n => "item" ++ toString n,
    process := fun _ _ _ => Except.ok Outcome.empty }

/-- C8 counterexample: `num_jobs = -1` is set but not positive, yet
`process_items` takes the parallel path (`task.parallel` is set to
true), contradicting the claim that the sequential executor runs
whenever `num_jobs` is not positive. -/
theorem c8_counterexample :
    (process_items ([] : List Nat) natTask (some (-1)) []).1 = true ∧
    ¬((0 : Int) < -1) := by
  exact ⟨rfl, by decide⟩

/-- C8 (amended): `process_items` sets `task.parallel` to true and runs
the parallel executor iff `num_jobs` is set and non-zero (Python's
`if num_jobs:`, so a negative value also selects the parallel path);
otherwise it sets `task.parallel` to false and runs the sequential
executor; in both cases the result map is wrapped in an
`OutcomeCollection`. -/
theorem c8_dispatch (T : Type) (items : List T) (task : Task T)
    (num_jobs : Option Int) (completion_order : List Nat) :
    ((process_items items task num_jobs completion_order).1 = true ↔
      (num_jobs ≠ none ∧ num_jobs ≠ some 0)) ∧
    (pyTruthyInt num_jobs = true →
      process_items items task num_jobs completion_order =
        (true, OutcomeCollection.build
          (ParallelExecutor.process task items completion_order))) ∧
    (pyTruthyInt num_jobs = false →
      process_items items task num_jobs completion_order =
        (false, OutcomeCollection.build (SequentialExecutor.process task items))) := by
  refine ⟨?_, ?_, ?_⟩
  · rcases num_jobs with _ | n
    · simp [process_items, pyTruthyInt]
    · by_cases hn : n = 0 <;> simp [process_items, pyTruthyInt, hn]
  · intro h
    rw [process_items, h]
    simp
  · intro h
    rw [process_items, h]
    simp

/-- Witness for C8 (amended) at concrete inputs on both sides of the
dispatch. -/
theorem c8_dispatch_witness :
    pyTruthyInt (some 2) = true ∧
    pyTruthyInt none = false ∧
    process_items [(7 : Nat)] natTask (some 2) [0] =
      (true, OutcomeCollection.build (ParallelExecutor.process natTask [7] [0])) ∧
    process_items [(7 : Nat)] natTask none [0] =
      (false, OutcomeCollection.build (SequentialExecutor.process natTask [7])) := by
  refine ⟨rfl, rfl, ?_, ?_⟩
  · exact (c8_dispatch Nat [7] natTask (some 2) [0]).2.1 rfl
  · exact (c8_dispatch Nat [7] natTask none [0]).2.2 rfl

/-- Inserting into the dict keeps the keys unchanged when the key is
present and appends it otherwise. -/
theorem keys_dictInsert (d : List (String × Outcome)) (k : String) (v : Outcome) :
    (dictInsert d k v).map Prod.fst =
      if k ∈ d.map Prod.fst then d.map Prod.fst else d.map Prod.fst ++ [k] := by
  unfold dictInsert
  by_cases hk : k ∈ d.map Prod.fst
  · have hany : (d.any fun p => p.1 = k) = true := by
      simp only [List.mem_map] at hk
      obtain ⟨p, hp, hpk⟩ := hk
      simp only [List.any_eq_true, decide_eq_true_eq]
      exact ⟨p, hp, hpk⟩
    rw [hany, if_pos rfl, if_pos hk, List.map_map]
    apply List.map_congr_left
    intro p _
    by_cases hpk : p.1 = k <;> simp [hpk]
  · have hany : (d.any fun p => p.1 = k) = false := by
      simp only [List.any_eq_false, decide_eq_true_eq]
      intro p hp hpk
      exact hk (List.mem_map.mpr ⟨p, hp, hpk⟩)
    rw [hany, if_neg (by simp), if_neg hk]
    simp

/-- Key membership after a dict insertion. -/
theorem mem_keys_dictInsert (d : List (String × Outcome)) (k : String) (v : Outcome)
    (k0 : String) :
    k0 ∈ (dictInsert d k v).map Prod.fst ↔ k0 ∈ d.map Prod.fst ∨ k0 = k := by
  rw [keys_dictInsert]
  by_cases hk : k ∈ d.map Prod.fst
  · rw [if_pos hk]
    constructor
    · exact fun h => Or.inl h
    · rintro (h | h)
      · exact h
      · rw [h]; exact hk
  · rw [if_neg hk]
    simp

/-- An entry of the dict after insertion is the inserted pair or an
original entry. -/
theorem mem_dictInsert (d : List (String × Outcome)) (k : String) (v : Outcome)
    (p : String × Outcome) (h : p ∈ dictInsert d k v) : p = (k, v) ∨ p ∈ d := by
  unfold dictInsert at h
  by_cases hb : (d.any fun p => p.1 = k) = true
  · rw [hb, if_pos rfl] at h
    obtain ⟨q, hq, hqe⟩ := List.mem_map.mp h
    by_cases hqk : q.1 = k
    · left; rw [← hqe, if_pos hqk]
    · right; rw [← hqe, if_neg hqk]; exact hq
  · rw [Bool.not_eq_true] at hb
    rw [hb, if_neg (by simp)] at h
    rcases List.mem_append.mp h with h | h
    · right; exact h
    · left; simpa using h

/-- Key membership for the sequential loop. -/
theorem mem_keys_seqLoop {T : Type} (task : Task T) (count : Nat) :
    ∀ (items : List T) (idx : Nat) (d : List (String × Outcome)) (k : String),
      k ∈ (seqLoop task count idx items d).map Prod.fst ↔
        k ∈ d.map Prod.fst ∨ k ∈ items.map task.describe_item := by
  intro items
  induction items with
  | nil => intro idx d k; simp [seqLoop]
  | cons item rest ih =>
    intro idx d k
    rw [seqLoop, ih, mem_keys_dictInsert]
    simp only [List.map_cons, List.mem_cons]
    tauto

/-- Every entry produced by the sequential loop is an initial entry or a
described item with the outcome the executor stored for it. -/
theorem mem_seqLoop {T : Type} (task : Task T) (count : Nat) :
    ∀ (items : List T) (idx : Nat) (d : List (String × Outcome)) (p : String × Outcome),
      p ∈ seqLoop task count idx items d →
        p ∈ d ∨ ∃ i item, item ∈ items ∧
          p = (task.describe_item item, outcomeOf task i count item) := by
  intro items
  induction items with
  | nil => intro idx d p h; left; simpa [seqLoop] using h
  | cons item rest ih =>
    intro idx d p h
    rw [seqLoop] at h
    rcases ih (idx + 1) _ p h with h2 | ⟨i, it, hit, hp⟩
    · rcases mem_dictInsert _ _ _ _ h2 with h3 | h3
      · right; exact ⟨idx, item, by simp, h3⟩
      · left; exact h3
    · right; exact ⟨i, it, by simp [hit], hp⟩

/-- Closed form of the sequential loop when the item descriptions are
distinct and fresh: the loop appends one entry per item, in input
order. -/
theorem seqLoop_eq {T : Type} (task : Task T) (count : Nat) :
    ∀ (items : List T) (idx : Nat) (d : List (String × Outcome)),
      (∀ item ∈ items, task.describe_item item ∉ d.map Prod.fst) →
      (items.map task.describe_item).Nodup →
      seqLoop task count idx items d =
        d ++ (List.enumFrom idx items).map
          (fun q => (task.describe_item q.2, outcomeOf task q.1 count q.2)) := by
  intro items
  induction items with
  | nil => intro idx d _ _; simp [seqLoop]
  | cons item rest ih =>
    intro idx d hfresh hnd
    have hdesc : task.describe_item item ∉ d.map Prod.fst := hfresh item (by simp)
    rw [List.map_cons] at hnd
    have hnd2 := List.nodup_cons.mp hnd
    have hins : dictInsert d (task.describe_item item) (outcomeOf task idx count item) =
        d ++ [(task.describe_item item, outcomeOf task idx count item)] := by
      unfold dictInsert
      have hany : (d.any fun p => p.1 = task.describe_item item) = false := by
        simp only [List.any_eq_false, decide_eq_true_eq]
        intro p hp hpk
        exact hdesc (List.mem_map.mpr ⟨p, hp, hpk⟩)
      rw [hany, if_neg (by simp)]
    rw [seqLoop, hins, ih (idx + 1) _ ?_ hnd2.2]
    · simp [List.enumFrom]
    · intro it hit
      rw [List.map_append]
      intro hmem
      rcases List.mem_append.mp hmem with h | h
      · exact hfresh it (by simp [hit]) h
      · simp only [List.map_cons, List.map_nil, List.mem_singleton] at h
        exact hnd2.1 (h ▸ List.mem_map.mpr ⟨it, hit, rfl⟩)

/-- In an association list with distinct keys, `lookup` of an entry's
key finds that entry's value. -/
theorem lookup_of_mem_of_nodup :
    ∀ (l : List (String × Outcome)), (l.map Prod.fst).Nodup →
      ∀ p ∈ l, List.lookup p.1 l = some p.2 := by
  intro l
  induction l with
  | nil => intro _ p hp; simp at hp
  | cons q rest ih =>
    intro hnd p hp
    rw [List.map_cons] at hnd
    have hnd2 := List.nodup_cons.mp hnd
    rcases List.mem_cons.mp hp with h | h
    · subst h
      simp [List.lookup]
    · have hne : p.1 ≠ q.1 := by
        intro he
        exact hnd2.1 (he ▸ List.mem_map.mpr ⟨p, h, rfl⟩)
      have hbe : (p.1 == q.1) = false := by simpa using hne
      rw [List.lookup, hbe]
      exact ih hnd2.2 p h

/-- The pair `(n + j, items[j])` occurs in `enumFrom n items`. -/
theorem mem_enumFrom_self {T : Type} :
    ∀ (l : List T) (n j : Nat) (h : j < l.length),
      (n + j, l.get ⟨j, h⟩) ∈ List.enumFrom n l := by
  intro l
  induction l with
  | nil => intro n j h; simp at h
  | cons a t ih =>
    intro n j h
    cases j with
    | zero => simp [List.enumFrom]
    | succ j =>
      have harith : n + (j + 1) = (n + 1) + j := by omega
      rw [harith]
      exact List.mem_cons_of_mem _ (ih (n + 1) j (by simpa using Nat.lt_of_succ_lt_succ h))

/-- Key membership for the parallel collection loop. -/
theorem mem_keys_parLoop {T : Type} (task : Task T) (items : List T) :
    ∀ (ord : List Nat) (d : List (String × Outcome)) (k : String),
      k ∈ (parLoop task items ord d).map Prod.fst ↔
        k ∈ d.map Prod.fst ∨
          ∃ i ∈ ord, ∃ h : i < items.length, task.describe_item (items.get ⟨i, h⟩) = k := by
  intro ord
  induction ord with
  | nil => intro d k; simp [parLoop]
  | cons i rest ih =>
    intro d k
    rcases hg : items.get? i with _ | item
    · have hstep : parLoop task items (i :: rest) d = parLoop task items rest d := by
        rw [parLoop, hg]
      have hni : ¬(i < items.length) := by
        have := List.get?_eq_none.mp hg
        omega
      rw [hstep, ih]
      constructor
      · rintro (h | ⟨i2, hi2, hlt, hk⟩)
        · exact Or.inl h
        · exact Or.inr ⟨i2, List.mem_cons_of_mem _ hi2, hlt, hk⟩
      · rintro (h | ⟨i2, hi2, hlt, hk⟩)
        · exact Or.inl h
        · rcases List.mem_cons.mp hi2 with he | hm
          · exact absurd (he ▸ hlt) hni
          · exact Or.inr ⟨i2, hm, hlt, hk⟩
    · obtain ⟨hlt, hget⟩ := List.get?_eq_some.mp hg
      have hstep : parLoop task items (i :: rest) d =
          parLoop task items rest
            (dictInsert d (task.describe_item item) (outcomeOf task i items.length item)) := by
        rw [parLoop, hg]
      rw [hstep, ih, mem_keys_dictInsert]
      constructor
      · rintro ((h | h) | ⟨i2, hi2, hlt2, hk⟩)
        · exact Or.inl h
        · exact Or.inr ⟨i, by simp, hlt, by rw [hget, h]⟩
        · exact Or.inr ⟨i2, List.mem_cons_of_mem _ hi2, hlt2, hk⟩
      · rintro (h | ⟨i2, hi2, hlt2, hk⟩)
        · exact Or.inl (Or.inl h)
        · rcases List.mem_cons.mp hi2 with he | hm
          · subst he
            left; right
            rw [← hk]
            exact congrArg task.describe_item hget
          · exact Or.inr ⟨i2, hm, hlt2, hk⟩

/-- Every entry produced by the parallel loop is an initial entry or a
described item with the outcome the executor stored for it. -/
theorem mem_parLoop {T : Type} (task : Task T) (items : List T) :
    ∀ (ord : List Nat) (d : List (String × Outcome)) (p : String × Outcome),
      p ∈ parLoop task items ord d →
        p ∈ d ∨ ∃ i item, items.get? i = some item ∧
          p = (task.describe_item item, outcomeOf task i items.length item) := by
  intro ord
  induction ord with
  | nil => intro d p h; left; simpa [parLoop] using h
  | cons i rest ih =>
    intro d p h
    rcases hg : items.get? i with _ | item
    · have hstep : parLoop task items (i :: rest) d = parLoop task items rest d := by
        rw [parLoop, hg]
      rw [hstep] at h
      exact ih d p h
    · have hstep : parLoop task items (i :: rest) d =
          parLoop task items rest
            (dictInsert d (task.describe_item item) (outcomeOf task i items.length item)) := by
        rw [parLoop, hg]
      rw [hstep] at h
      rcases ih _ p h with h2 | h2
      · rcases mem_dictInsert _ _ _ _ h2 with h3 | h3
        · right; exact ⟨i, item, hg, h3⟩
        · left; exact h3
      · right; exact h2

/-- When a task's `process` never raises and only returns error-free
outcomes, whatever the executor stores is a success. -/
theorem outcomeOf_success {T : Type} (task : Task T)
    (H : ∀ index count item, ∃ o, task.process index count item = Except.ok o ∧ o.error = none)
    (i c : Nat) (item : T) : (outcomeOf task i c item).success = true := by
  obtain ⟨o, ho, he⟩ := H i c item
  rw [outcomeOf, ho, Outcome.success, he]
  rfl

/-- Closed form of the sequential executor under distinct descriptions:
one entry per item, in input order, holding the stored outcome. -/
theorem seq_process_closed {T : Type} (task : Task T) (items : List T)
    (hnd : (items.map task.describe_item).Nodup) :
    SequentialExecutor.process task items =
      (List.enumFrom 0 items).map
        (fun q => (task.describe_item q.2, outcomeOf task q.1 items.length q.2)) := by
  show seqLoop task items.length 0 items [] = _
  rw [seqLoop_eq task items.length items 0 [] (by simp) hnd]
  simp

/-- The keys of the sequential executor's closed form are the item
descriptions, in order. -/
theorem seq_closed_keys {T : Type} (task : Task T) (items : List T) :
    ((List.enumFrom 0 items).map
      (fun q => (task.describe_item q.2, outcomeOf task q.1 items.length q.2))).map Prod.fst
      = items.map task.describe_item := by
  rw [List.map_map]
  have h1 : (Prod.fst ∘ fun q : Nat × T =>
      (task.describe_item q.2, outcomeOf task q.1 items.length q.2)) =
      task.describe_item ∘ Prod.snd := rfl
  rw [h1, ← List.map_map, List.enumFrom_map_snd]

/-- A task whose `process` never raises yet always returns an outcome
carrying an error. -/
def c6Task : Task Nat :=
  { describe_item := fun _ => "a",
    process := fun _ _ _ => Except.ok (Outcome.from_error ⟨"boom"⟩) }

/-- C6 counterexample: a task whose `process` never raises but returns an
outcome that carries an error; the sequential executor's map stores that
unsuccessful outcome, so "all outcomes successful" fails.  (`c6Task`
always returns `Except.ok (Outcome.from_error ⟨"boom"⟩)`.) -/
theorem c6_counterexample :
    (∀ index count item, c6Task.process index count item =
      Except.ok (Outcome.from_error ⟨"boom"⟩)) ∧
    SequentialExecutor.process c6Task [0] = [("a", Outcome.from_error ⟨"boom"⟩)] ∧
    (Outcome.from_error ⟨"boom"⟩).success = false :=
  ⟨fun _ _ _ => rfl, rfl, rfl⟩

/-- C6 (amended): when the task's `process` never raises and every
outcome it returns is error-free, both executors produce maps whose key
set is exactly the set of item descriptions, with every stored outcome
successful (the parallel executor under any completion order of the
futures); with distinct descriptions the sequential map lists the items
in input order, and a `process` call that raises `e` is stored as
`Outcome.from_error e` under that item's key while every other item
keeps its own stored outcome. -/
theorem c6_executors (T : Type) (task : Task T) (items : List T)
    (completion_order : List Nat)
    (hord : completion_order.Perm (List.range items.length)) :
    ((∀ index count item, ∃ o, task.process index count item = Except.ok o ∧
        o.error = none) →
      (∀ k, k ∈ (SequentialExecutor.process task items).map Prod.fst ↔
        k ∈ items.map task.describe_item) ∧
      (∀ p ∈ SequentialExecutor.process task items, p.2.success = true) ∧
      (∀ k, k ∈ (ParallelExecutor.process task items completion_order).map Prod.fst ↔
        k ∈ items.map task.describe_item) ∧
      (∀ p ∈ ParallelExecutor.process task items completion_order, p.2.success = true)) ∧
    ((items.map task.describe_item).Nodup →
      SequentialExecutor.process task items =
        (List.enumFrom 0 items).map
          (fun q => (task.describe_item q.2, outcomeOf task q.1 items.length q.2))) ∧
    ((items.map task.describe_item).Nodup →
      ∀ (k : Nat) (hk : k < items.length) (e : Error),
        task.process k items.length (items.get ⟨k, hk⟩) = Except.error e →
        List.lookup (task.describe_item (items.get ⟨k, hk⟩))
            (SequentialExecutor.process task items) = some (Outcome.from_error e) ∧
        ∀ (j : Nat) (hj : j < items.length), j ≠ k →
          List.lookup (task.describe_item (items.get ⟨j, hj⟩))
              (SequentialExecutor.process task items) =
            some (outcomeOf task j items.length (items.get ⟨j, hj⟩))) := by
  have hlookup : (items.map task.describe_item).Nodup →
      ∀ (j : Nat) (hj : j < items.length),
        List.lookup (task.describe_item (items.get ⟨j, hj⟩))
            (SequentialExecutor.process task items) =
          some (outcomeOf task j items.length (items.get ⟨j, hj⟩)) := by
    intro hnd j hj
    rw [seq_process_closed task items hnd]
    have hknd : (((List.enumFrom 0 items).map
        (fun q => (task.describe_item q.2, outcomeOf task q.1 items.length q.2))).map
          Prod.fst).Nodup := by
      rw [seq_closed_keys]; exact hnd
    have hpmem : (task.describe_item (items.get ⟨j, hj⟩),
        outcomeOf task j items.length (items.get ⟨j, hj⟩)) ∈
        (List.enumFrom 0 items).map
          (fun q => (task.describe_item q.2, outcomeOf task q.1 items.length q.2)) := by
      refine List.mem_map.mpr ⟨(j, items.get ⟨j, hj⟩), ?_, rfl⟩
      have := mem_enumFrom_self items 0 j hj
      simpa using this
    exact lookup_of_mem_of_nodup _ hknd _ hpmem
  refine ⟨?_, seq_process_closed task items, ?_⟩
  · intro H
    refine ⟨?_, ?_, ?_, ?_⟩
    · intro k
      have h := mem_keys_seqLoop task items.length items 0 [] k
      simpa using h
    · intro p hp
      rcases mem_seqLoop task items.length items 0 [] p hp with h | ⟨i, it, _, hp2⟩
      · simp at h
      · rw [hp2]
        exact outcomeOf_success task H i items.length it
    · intro k
      have h := mem_keys_parLoop task items completion_order [] k
      have hmem : ∀ i, i ∈ completion_order ↔ i < items.length := by
        intro i
        rw [hord.mem_iff, List.mem_range]
      constructor
      · intro hk
        rcases (h.mp hk) with h2 | ⟨i, _, hlt, hk2⟩
        · simp at h2
        · exact List.mem_map.mpr ⟨items.get ⟨i, hlt⟩, List.get_mem items i hlt, hk2⟩
      · intro hk
        obtain ⟨a, ha, hka⟩ := List.mem_map.mp hk
        obtain ⟨⟨i, hlt⟩, hget⟩ := List.mem_iff_get.mp ha
        refine h.mpr (Or.inr ⟨i, (hmem i).mpr hlt, hlt, ?_⟩)
        rw [hget]
        exact hka
    · intro p hp
      rcases mem_parLoop task items completion_order [] p hp with h | ⟨i, it, _, hp2⟩
      · simp at h
      · rw [hp2]
        exact outcomeOf_success task H i items.length it
  · intro hnd k hk e he
    constructor
    · have h := hlookup hnd k hk
      rw [h]
      rw [outcomeOf, he]
    · intro j hj _
      exact hlookup hnd j hj

/-- Witness for C6 (amended): the concrete always-successful task on a
one-item list with the identity completion order. -/
theorem c6_executors_witness :
    ([0] : List Nat).Perm (List.range ([5] : List Nat).length) ∧
    (∀ k, k ∈ (SequentialExecutor.process natTask [5]).map Prod.fst ↔
      k ∈ ([5] : List Nat).map natTask.describe_item) ∧
    (∀ p ∈ ParallelExecutor.process natTask [5] [0], p.2.success = true) ∧
    (([5] : List Nat).map natTask.describe_item).Nodup ∧
    SequentialExecutor.process natTask [5] =
      (List.enumFrom 0 [5]).map
        (fun q => (natTask.describe_item q.2, outcomeOf natTask q.1 [5].length q.2)) := by
  have h := c6_executors Nat natTask [5] [0] (by decide)
  have hH : ∀ index count item, ∃ o, natTask.process index count item = Except.ok o ∧
      o.error = none := fun _ _ _ => ⟨Outcome.empty, rfl, rfl⟩
  exact ⟨by decide, (h.1 hH).1, (h.1 hH).2.2.2, by decide, h.2.1 (by decide)⟩

/-- One remote-setter step only appends to the accumulated summary. -/
theorem step_summary_append (env : GitEnv) (workspace_path : String) (repo : Repo)
    (summary : List Token) (remote : Remote) :
    ∃ t, (RemoteSetter.step env workspace_path repo summary remote).2 = summary ++ t := by
  simp only [RemoteSetter.step]
  rcases hg : RemoteSetter.get_remote env workspace_path repo remote.name with _ | existing <;>
    simp only [hg]
  · rcases hr : env.run_git (workspace_path ++ "/" ++ repo.dest)
      ["remote", "add", remote.name, remote.url] with _ | e <;>
      simp only [hr] <;>
      by_cases hs : summary = [] <;>
      simp [hs]
  · by_cases hu : existing.url ≠ remote.url
    · rcases hr : env.run_git (workspace_path ++ "/" ++ repo.dest)
        ["remote", "set-url", remote.name, remote.url] with _ | e <;>
        simp [hu, hr]
    · simp only [hu, if_false]
      exact ⟨[], by simp⟩

/-- The remote loop only appends to the accumulated summary. -/
theorem remoteLoop_summary_append (env : GitEnv) (workspace_path : String) (repo : Repo) :
    ∀ (rs : List Remote) (summary : List Token),
      ∃ t, (remoteLoop env workspace_path repo rs summary).2 = summary ++ t := by
  intro rs
  induction rs with
  | nil => intro summary; exact ⟨[], by simp [remoteLoop]⟩
  | cons r rest ih =>
    intro summary
    obtain ⟨t1, ht1⟩ := step_summary_append env workspace_path repo summary r
    rcases hs : RemoteSetter.step env workspace_path repo summary r with ⟨res, s2⟩
    have hs2 : s2 = summary ++ t1 := by rw [hs] at ht1; exact ht1
    rcases res with e | u
    · have hL : remoteLoop env workspace_path repo (r :: rest) summary =
          (Except.error e, s2) := by
        rw [remoteLoop, hs]
      refine ⟨t1, ?_⟩
      rw [hL]
      exact hs2
    · have hL : remoteLoop env workspace_path repo (r :: rest) summary =
          remoteLoop env workspace_path repo rest s2 := by
        rw [remoteLoop, hs]
      obtain ⟨t2, ht2⟩ := ih s2
      refine ⟨t1 ++ t2, ?_⟩
      rw [hL, ht2, hs2, List.append_assoc]

/-- `RemoteSetter.process` only appends to the accumulated summary. -/
theorem process_summary_append (env : GitEnv) (workspace_path : String) (repo : Repo)
    (summary : List Token) :
    ∃ t, (RemoteSetter.process env workspace_path repo summary).2 = summary ++ t := by
  obtain ⟨t, ht⟩ := remoteLoop_summary_append env workspace_path repo repo.remotes summary
  rcases hl : remoteLoop env workspace_path repo repo.remotes summary with ⟨res, s2⟩
  have hs2 : s2 = summary ++ t := by rw [hl] at ht; exact ht
  rcases res with e | u <;> exact ⟨t, by rw [RemoteSetter.process, hl, hs2]⟩

/-- On success, `RemoteSetter.process` returns exactly the accumulated
summary state. -/
theorem process_ok_returns_state (env : GitEnv) (workspace_path : String) (repo : Repo)
    (summary : List Token) (v : List Token)
    (h : (RemoteSetter.process env workspace_path repo summary).1 = Except.ok v) :
    v = (RemoteSetter.process env workspace_path repo summary).2 := by
  rcases hl : remoteLoop env workspace_path repo repo.remotes summary with ⟨res, s2⟩
  rcases res with e | u
  · rw [RemoteSetter.process, hl] at h
    simp at h
  · rw [RemoteSetter.process, hl] at h ⊢
    simp at h ⊢
    exact h.symm

/-- The `k`-th returned value of a sequential remote-setter run is the
whole summary accumulated through the first `k + 1` repositories. -/
theorem run_all_get (env : GitEnv) (workspace_path : String) :
    ∀ (repos : List Repo) (summary : List Token) (k : Nat) (v : List Token),
      (RemoteSetter.run_all env workspace_path repos summary).1.get? k =
        some (Except.ok v) →
      v = (RemoteSetter.run_all env workspace_path (repos.take (k + 1)) summary).2 ∧
      ∃ t, (RemoteSetter.run_all env workspace_path (repos.take k) summary).2 ++ t = v := by
  intro repos
  induction repos with
  | nil => intro summary k v h; simp [RemoteSetter.run_all] at h
  | cons repo rest ih =>
    intro summary k v h
    rw [RemoteSetter.run_all] at h
    cases k with
    | zero =>
      rw [List.get?_cons_zero] at h
      have hok : (RemoteSetter.process env workspace_path repo summary).1 =
          Except.ok v := Option.some.inj h
      constructor
      · exact process_ok_returns_state env workspace_path repo summary v hok
      · obtain ⟨t, ht⟩ := process_summary_append env workspace_path repo summary
        refine ⟨t, ?_⟩
        show summary ++ t = v
        rw [← ht]
        exact (process_ok_returns_state env workspace_path repo summary v hok).symm
    | succ k =>
      rw [List.get?_cons_succ] at h
      have hih := ih (RemoteSetter.process env workspace_path repo summary).2 k v h
      constructor
      · rw [List.take_succ_cons, RemoteSetter.run_all]
        exact hih.1
      · rw [List.take_succ_cons, RemoteSetter.run_all]
        exact hih.2

/-- C10: `RemoteSetter.process` returns the task-level accumulated
summary, not a per-item one: the value returned for the `k`-th
repository is the full summary after the first `k + 1` repositories —
it extends the summary accumulated by the earlier repositories — and it
is non-empty whenever the earlier repositories produced any lines, even
if the `k`-th repository itself changed nothing. -/
theorem c10_remote_setter_accumulates (env : GitEnv) (workspace_path : String)
    (repos : List Repo) (k : Nat) (v : List Token)
    (h : (RemoteSetter.run_all env workspace_path repos []).1.get? k =
      some (Except.ok v)) :
    v = (RemoteSetter.run_all env workspace_path (repos.take (k + 1)) []).2 ∧
    (∃ t, (RemoteSetter.run_all env workspace_path (repos.take k) []).2 ++ t = v) ∧
    ((RemoteSetter.run_all env workspace_path (repos.take k) []).2 ≠ [] → v ≠ []) := by
  obtain ⟨h1, t, ht⟩ := run_all_get env workspace_path repos [] k v h
  refine ⟨h1, ⟨t, ht⟩, ?_⟩
  intro hne hv
  rw [hv] at ht
  have := List.append_eq_nil.mp ht
  exact hne this.1

/-- A git environment for the remote setter: repository `a` has no
`origin` remote yet (`remote get-url` exits 1), repository `b` already
has `origin` at `u2`. -/
def c10Env : GitEnv :=
  { allOkEnv with
    run_git_captured := fun path _ => if path = "ws/a" then ((1 : Int), "") else (0, "u2") }

/-- Repository `a`, declaring `origin = u1`. -/
def c10RepoA : Repo := ⟨"a", [⟨"origin", "u1"⟩], "master", none, none⟩

/-- Repository `b`, declaring `origin = u2` (already configured). -/
def c10RepoB : Repo := ⟨"b", [⟨"origin", "u2"⟩], "master", none, none⟩

/-- Witness for C10: repository `b` needs no remote change, yet its
returned value is the non-empty summary accumulated while processing
repository `a`. -/
theorem c10_remote_setter_accumulates_witness :
    ((RemoteSetter.run_all c10Env "ws" [c10RepoA, c10RepoB] []).1.get? 1 =
      some (Except.ok (addRemoteMessage c10RepoA ⟨"origin", "u1"⟩))) ∧
    (RemoteSetter.run_all c10Env "ws" ([c10RepoA, c10RepoB].take 1) []).2 ≠ [] ∧
    addRemoteMessage c10RepoA ⟨"origin", "u1"⟩ ≠ [] ∧
    addRemoteMessage c10RepoA ⟨"origin", "u1"⟩ =
      (RemoteSetter.run_all c10Env "ws" ([c10RepoA, c10RepoB].take 2) []).2 := by
  have h := c10_remote_setter_accumulates c10Env "ws" [c10RepoA, c10RepoB] 1
    (addRemoteMessage c10RepoA ⟨"origin", "u1"⟩) (by decide)
  exact ⟨by decide, by decide, h.2.2 (by decide), h.1⟩

end Tsrc
